import Mathlib

/-!
# Verification of the LossAccPlotter analytics core (`laplotter.py`)

Shallow embedding of the analytics layer of `laplotter.py`:
value sanitization (`ignore_nan_and_inf`), the append-only per-channel
series store filled by `add_values`, the simple-moving-average smoother
(`_calc_sma`) and the polynomial-trend extrapolator (`_calc_regression`).

Python floats are modelled as `PyFloat` (a finite rational, NaN, or ±Inf);
finite float arithmetic is modelled exactly over `ℚ`.  `np.polyfit` /
`np.poly1d` are treated as an abstract fitting primitive: `calc_regression`
is parametrised by a function `fit : ℕ → List ℤ → List ℚ → ℤ → ℚ` mapping a
degree and the slices handed to `np.polyfit` to the fitted polynomial (as an
evaluation function); every theorem about the extrapolator quantifies over
`fit`, so the results hold for the actual numpy least-squares fit as well.
Stateful methods are translated by explicit state passing on `PlotterState`;
`warnings.warn` is modelled by returning the emitted warnings as a list.
-/

namespace LAPlotter

/-- A Python float value as it can reach `ignore_nan_and_inf`: a finite
value (modelled exactly as a rational), NaN, or one of the two infinities. -/
inductive PyFloat where
  | finite (val : ℚ)
  | nan
  | posInf
  | negInf
deriving DecidableEq

/-- Reason recorded in a sanitization warning (`math.isnan` vs `math.isinf`). -/
inductive WarnReason where
  | nanVal
  | infVal
deriving DecidableEq

/-- A sanitization diagnostic, modelling the formatted message passed to
`warnings.warn`: it carries the offending channel label and the x-index. -/
structure Warning where
  reason : WarnReason
  label : String
  xIndex : ℤ
deriving DecidableEq

/-- `math.isnan` on a `PyFloat`. -/
def PyFloat.isnan : PyFloat → Bool
  | .nan => true
  | _ => false

/-- `math.isinf` on a `PyFloat` (true for both infinities). -/
def PyFloat.isinf : PyFloat → Bool
  | .posInf => true
  | .negInf => true
  | _ => false

/-- `ignore_nan_and_inf(value, label, x_index)` (laplotter.py lines 10-20):
`None` passes through silently; NaN and ±Inf are replaced by `None` with a
warning naming the label and the x-index; finite values pass unchanged.
The emitted warnings are returned alongside the result. -/
def ignore_nan_and_inf : Option PyFloat → String → ℤ → Option ℚ × List Warning
  | none, _, _ => (none, [])
  | some .nan, label, x_index => (none, [⟨.nanVal, label, x_index⟩])
  | some .posInf, label, x_index => (none, [⟨.infVal, label, x_index⟩])
  | some .negInf, label, x_index => (none, [⟨.infVal, label, x_index⟩])
  | some (.finite q), _, _ => (some q, [])

/-- The per-channel series stores of `LossAccPlotter`: the eight parallel
`values_*_x` / `values_*_y` lists initialised in `__init__`. -/
structure PlotterState where
  values_loss_train_x : List ℤ
  values_loss_val_x : List ℤ
  values_acc_train_x : List ℤ
  values_acc_val_x : List ℤ
  values_loss_train_y : List ℚ
  values_loss_val_y : List ℚ
  values_acc_train_y : List ℚ
  values_acc_val_y : List ℚ
deriving DecidableEq

/-- The freshly constructed plotter: all eight store lists empty. -/
def initState : PlotterState := ⟨[], [], [], [], [], [], [], []⟩

/-- The four channels tracked by the plotter. -/
inductive Channel where
  | loss_train
  | loss_val
  | acc_train
  | acc_val
deriving DecidableEq

/-- The x-index list of a channel's store. -/
def PlotterState.xs (st : PlotterState) : Channel → List ℤ
  | .loss_train => st.values_loss_train_x
  | .loss_val => st.values_loss_val_x
  | .acc_train => st.values_acc_train_x
  | .acc_val => st.values_acc_val_x

/-- The y-value list of a channel's store. -/
def PlotterState.ys (st : PlotterState) : Channel → List ℚ
  | .loss_train => st.values_loss_train_y
  | .loss_val => st.values_loss_val_y
  | .acc_train => st.values_acc_train_y
  | .acc_val => st.values_acc_val_y

/-- `add_values(x_index, loss_train, loss_val, acc_train, acc_val)`
(laplotter.py lines 133-153, without the out-of-scope `redraw` tail):
each supplied value is sanitized by `ignore_nan_and_inf`, and every
surviving value is appended, together with `x_index`, to its channel's
parallel lists.  Returns the new state and the warnings emitted, in the
order the four channels are sanitized. -/
def add_values (st : PlotterState) (x_index : ℤ)
    (loss_train loss_val acc_train acc_val : Option PyFloat) :
    PlotterState × List Warning :=
  let rlt := ignore_nan_and_inf loss_train "loss train" x_index
  let rlv := ignore_nan_and_inf loss_val "loss val" x_index
  let rat := ignore_nan_and_inf acc_train "acc train" x_index
  let rav := ignore_nan_and_inf acc_val "acc val" x_index
  let st1 := match rlt.1 with
    | some q => { st with
        values_loss_train_x := st.values_loss_train_x ++ [x_index],
        values_loss_train_y := st.values_loss_train_y ++ [q] }
    | none => st
  let st2 := match rlv.1 with
    | some q => { st1 with
        values_loss_val_x := st1.values_loss_val_x ++ [x_index],
        values_loss_val_y := st1.values_loss_val_y ++ [q] }
    | none => st1
  let st3 := match rat.1 with
    | some q => { st2 with
        values_acc_train_x := st2.values_acc_train_x ++ [x_index],
        values_acc_train_y := st2.values_acc_train_y ++ [q] }
    | none => st2
  let st4 := match rav.1 with
    | some q => { st3 with
        values_acc_val_x := st3.values_acc_val_x ++ [x_index],
        values_acc_val_y := st3.values_acc_val_y ++ [q] }
    | none => st3
  (st4, rlt.2 ++ rlv.2 ++ rat.2 ++ rav.2)

/-- One ingestion call: an x-index plus the four optional channel values. -/
structure Ingestion where
  x_index : ℤ
  loss_train : Option PyFloat
  loss_val : Option PyFloat
  acc_train : Option PyFloat
  acc_val : Option PyFloat

/-- Run a sequence of `add_values` calls, discarding warnings. -/
def ingestMany (st : PlotterState) : List Ingestion → PlotterState
  | [] => st
  | c :: rest =>
      ingestMany (add_values st c.x_index c.loss_train c.loss_val
        c.acc_train c.acc_val).1 rest

/-- The loop body of `_calc_sma` (laplotter.py lines 388-394): walk the
y-values maintaining the trailing window `last_ys` and its `running_sum`;
once the window exceeds `period`, pop its oldest element.  Each step emits
`running_sum / len(last_ys)`. -/
def calcSmaAux (period : ℕ) : List ℚ → ℚ → List ℚ → List ℚ
  | _, _, [] => []
  | last_ys, running_sum, y :: rest =>
      let last_ys2 := last_ys ++ [y]
      let sum2 := running_sum + y
      if period < last_ys2.length then
        let sum3 := sum2 - last_ys2.headI
        let last_ys3 := last_ys2.tail
        sum3 / (last_ys3.length : ℚ) :: calcSmaAux period last_ys3 sum3 rest
      else
        sum2 / (last_ys2.length : ℚ) :: calcSmaAux period last_ys2 sum2 rest

/-- `_calc_sma(x_values, y_values)` (laplotter.py lines 383-395) with the
window size `period` (= `self.averages_period`) made an explicit argument:
returns the x-list unchanged and the running-window averages of the y-list. -/
def calc_sma (period : ℕ) (x_values : List ℤ) (y_values : List ℚ) :
    List ℤ × List ℚ :=
  (x_values, calcSmaAux period [] 0 y_values)

/-- Python's `int()` applied to a real number: truncation toward zero. -/
def pyInt (q : ℚ) : ℤ := if 0 ≤ q then ⌊q⌋ else -⌊-q⌋

/-- Python's slice `l[-n:]` for an integer `n`: for `n > 0` the last `n`
elements (all of them when `n ≥ len(l)`); for `n ≤ 0` this is `l[(-n):]`,
in particular `l[-0:]` is the whole list. -/
def pyLastSlice (n : ℤ) (l : List α) : List α :=
  if 0 < n then l.rtake n.toNat else l.drop (-n).toNat

/-- The window-size computation of `_calc_regression` (laplotter.py lines
410-412 and 418-420): `n = int(count * perc)`, then `n = max(n, nMin)`,
then `n = min(n, nMax)`. -/
def calcWindow (count : ℤ) (perc : ℚ) (nMin nMax : ℤ) : ℤ :=
  min (max (pyInt ((count : ℚ) * perc)) nMin) nMax

/-- The configuration fields of `LossAccPlotter.__init__` consumed by
`_calc_regression`. -/
structure RegressionConfig where
  poly_forward_perc : ℚ
  poly_backward_perc : ℚ
  poly_n_forward_min : ℤ
  poly_n_backward_min : ℤ
  poly_n_forward_max : ℤ
  poly_n_backward_max : ℤ
  poly_degree : ℕ

/-- The default configuration set in `__init__` (laplotter.py lines 83-89). -/
def defaultRegressionConfig : RegressionConfig :=
  { poly_forward_perc := 1 / 10
    poly_backward_perc := 2 / 10
    poly_n_forward_min := 5
    poly_n_backward_min := 10
    poly_n_forward_max := 100
    poly_n_backward_max := 100
    poly_degree := 1 }

/-- `_calc_regression(x_values, y_values)` (laplotter.py lines 397-440),
parametrised by the abstract fitting primitive `fit` standing for
`np.poly1d(np.polyfit(xs, ys, degree))`: fewer than 2 points give
`([], [])`; otherwise the backward and forward window sizes are computed by
`calcWindow`; if both are `≤ 0` the result is `([], [])`; otherwise the
polynomial is fitted on the slices `x_values[-n_backward:]`,
`y_values[-n_backward:]` and evaluated on the `n_forward` consecutive
integers starting at `last_x = x_values[-1]` (inclusive). -/
def calc_regression (fit : ℕ → List ℤ → List ℚ → ℤ → ℚ)
    (cfg : RegressionConfig) (x_values : List ℤ) (y_values : List ℚ) :
    List ℤ × List ℚ :=
  if x_values.length < 2 then ([], [])
  else
    let last_x := x_values.getLastD 0
    let nb_values : ℤ := x_values.length
    let n_backward := calcWindow nb_values cfg.poly_backward_perc
      cfg.poly_n_backward_min cfg.poly_n_backward_max
    let n_forward := calcWindow nb_values cfg.poly_forward_perc
      cfg.poly_n_forward_min cfg.poly_n_forward_max
    if n_backward ≤ 0 ∧ n_forward ≤ 0 then ([], [])
    else
      let poly := fit cfg.poly_degree (pyLastSlice n_backward x_values)
        (pyLastSlice n_backward y_values)
      let future_x := (List.range n_forward.toNat).map (fun i : ℕ => last_x + (i : ℤ))
      (future_x, future_x.map poly)

/-- The three views the rendering layer reads for one channel. -/
structure Views where
  raw : List ℤ × List ℚ
  smoothed : List ℤ × List ℚ
  extrapolated : List ℤ × List ℚ
deriving DecidableEq

/-- State-passing translation of `_calc_sma` as a method: `self` is read
but never written (the method assigns only to locals), so the state is
returned unchanged next to the result. -/
def calc_sma_m (st : PlotterState) (period : ℕ) (xv : List ℤ)
    (yv : List ℚ) : PlotterState × (List ℤ × List ℚ) :=
  (st, calc_sma period xv yv)

/-- State-passing translation of `_calc_regression` as a method: `self` is
read but never written, so the state is returned unchanged next to the
result. -/
def calc_regression_m (st : PlotterState) (fit : ℕ → List ℤ → List ℚ → ℤ → ℚ)
    (cfg : RegressionConfig) (xv : List ℤ) (yv : List ℚ) :
    PlotterState × (List ℤ × List ℚ) :=
  (st, calc_regression fit cfg xv yv)

/-- The per-channel query of the analytics facade: read the channel's
stored series and compute the smoothed view (as in `_redraw_averages`) and
the extrapolated segment (as in `_redraw_regressions`), threading the
state through the two method calls. -/
def query (fit : ℕ → List ℤ → List ℚ → ℤ → ℚ) (cfg : RegressionConfig)
    (period : ℕ) (st : PlotterState) (c : Channel) : PlotterState × Views :=
  let raw := (st.xs c, st.ys c)
  let r1 := calc_sma_m st period (st.xs c) (st.ys c)
  let r2 := calc_regression_m r1.1 fit cfg (r1.1.xs c) (r1.1.ys c)
  (r2.1, ⟨raw, r1.2, r2.2⟩)

/-- The value `add_values` sanitizes for a given channel. -/
def chInput (vlt vlv vat vav : Option PyFloat) : Channel → Option PyFloat
  | .loss_train => vlt
  | .loss_val => vlv
  | .acc_train => vat
  | .acc_val => vav

/-- The label `add_values` passes to `ignore_nan_and_inf` for a channel. -/
def chLabel : Channel → String
  | .loss_train => "loss train"
  | .loss_val => "loss val"
  | .acc_train => "acc train"
  | .acc_val => "acc val"

/-- A concrete fitting primitive (the constant-zero polynomial), used to
instantiate the `fit` parameter in witnesses. -/
def constFit : ℕ → List ℤ → List ℚ → ℤ → ℚ := fun _ _ _ _ => 0

/-- Both parallel lists of every channel have the same length. -/
def lengthInvariant (st : PlotterState) : Prop :=
  ∀ c : Channel, (st.xs c).length = (st.ys c).length

/-- Helper: the effect of `add_values` on one channel's store, as a function
of that channel's own sanitized input only. -/
lemma add_values_channel (st : PlotterState) (x : ℤ)
    (vlt vlv vat vav : Option PyFloat) (c : Channel) :
    (add_values st x vlt vlv vat vav).1.xs c =
      (match (ignore_nan_and_inf (chInput vlt vlv vat vav c) (chLabel c) x).1 with
        | some _ => st.xs c ++ [x]
        | none => st.xs c) ∧
    (add_values st x vlt vlv vat vav).1.ys c =
      (match (ignore_nan_and_inf (chInput vlt vlv vat vav c) (chLabel c) x).1 with
        | some q => st.ys c ++ [q]
        | none => st.ys c) := by
  cases c <;>
    · unfold add_values chInput chLabel
      rcases h1 : (ignore_nan_and_inf vlt "loss train" x).1 with _ | q1 <;>
        rcases h2 : (ignore_nan_and_inf vlv "loss val" x).1 with _ | q2 <;>
          rcases h3 : (ignore_nan_and_inf vat "acc train" x).1 with _ | q3 <;>
            rcases h4 : (ignore_nan_and_inf vav "acc val" x).1 with _ | q4 <;>
              simp [h1, h2, h3, h4, PlotterState.xs, PlotterState.ys]

/-- Helper: `add_values` preserves the equal-length invariant. -/
lemma add_values_lengthInvariant (st : PlotterState) (x : ℤ)
    (vlt vlv vat vav : Option PyFloat) (h : lengthInvariant st) :
    lengthInvariant (add_values st x vlt vlv vat vav).1 := by
  intro c
  obtain ⟨hx, hy⟩ := add_values_channel st x vlt vlv vat vav c
  rw [hx, hy]
  rcases (ignore_nan_and_inf (chInput vlt vlv vat vav c) (chLabel c) x).1 with _ | q <;>
    simp [h c]

/-- C3: a series with fewer than 2 observations makes `_calc_regression`
return the empty pair `([], [])` (and, being total, it raises no error). -/
theorem c3_regression_short_series (fit : ℕ → List ℤ → List ℚ → ℤ → ℚ)
    (cfg : RegressionConfig) (x_values : List ℤ) (y_values : List ℚ)
    (h : x_values.length < 2) :
    calc_regression fit cfg x_values y_values = ([], []) := by
  unfold calc_regression
  rw [if_pos h]

/-- Witness for C3 at the one-point series `([0], [5])`. -/
theorem c3_regression_short_series_witness :
    ([0] : List ℤ).length < 2 ∧
      calc_regression constFit defaultRegressionConfig [0] [5] = ([], []) :=
  ⟨by decide,
    c3_regression_short_series constFit defaultRegressionConfig [0] [5] (by decide)⟩

/-- C5: the sanitizer returns absent with no warning on absent input;
returns absent and emits a warning carrying the channel label and the
x-index on NaN and on either infinity; returns finite values unchanged;
and, being a total function, it never raises. -/
theorem c5_sanitizer (label : String) (x_index : ℤ) (q : ℚ) :
    ignore_nan_and_inf none label x_index = (none, []) ∧
    ignore_nan_and_inf (some .nan) label x_index =
      (none, [⟨.nanVal, label, x_index⟩]) ∧
    ignore_nan_and_inf (some .posInf) label x_index =
      (none, [⟨.infVal, label, x_index⟩]) ∧
    ignore_nan_and_inf (some .negInf) label x_index =
      (none, [⟨.infVal, label, x_index⟩]) ∧
    ignore_nan_and_inf (some (.finite q)) label x_index = (some q, []) :=
  ⟨rfl, rfl, rfl, rfl, rfl⟩

/-- C6: in `add_values`, each channel's resulting store is determined by
that channel's own sanitized value alone — a NaN/Inf in one channel cannot
block another channel's finite value from being appended at the same
index, a channel whose value is absent is skipped (its store is left
unchanged, nothing is stored as zero), and the function is total, so
ingestion never raises for a bad value. -/
theorem c6_ingestion_isolation (st : PlotterState) (x : ℤ)
    (vlt vlv vat vav : Option PyFloat) (c : Channel) :
    ((add_values st x vlt vlv vat vav).1.xs c =
      (match (ignore_nan_and_inf (chInput vlt vlv vat vav c) (chLabel c) x).1 with
        | some _ => st.xs c ++ [x]
        | none => st.xs c) ∧
     (add_values st x vlt vlv vat vav).1.ys c =
      (match (ignore_nan_and_inf (chInput vlt vlv vat vav c) (chLabel c) x).1 with
        | some q => st.ys c ++ [q]
        | none => st.ys c)) ∧
    (chInput vlt vlv vat vav c = none →
      (add_values st x vlt vlv vat vav).1.xs c = st.xs c ∧
      (add_values st x vlt vlv vat vav).1.ys c = st.ys c) := by
  obtain ⟨hx, hy⟩ := add_values_channel st x vlt vlv vat vav c
  refine ⟨⟨hx, hy⟩, fun habs => ?_⟩
  rw [hx, hy, habs]
  exact ⟨rfl, rfl⟩

/-- C7: starting from the fresh plotter, any sequence of ingestions keeps
every channel's parallel index/value lists of equal length; and a single
`add_values` call either leaves a channel's store untouched or appends
exactly one `(index, value)` pair at its end — it never reorders, removes
or deduplicates, so repeated or out-of-order indices are simply appended. -/
theorem c7_store_invariant :
    (∀ calls : List Ingestion, lengthInvariant (ingestMany initState calls)) ∧
    (∀ (st : PlotterState) (x : ℤ) (vlt vlv vat vav : Option PyFloat)
        (c : Channel),
      ((add_values st x vlt vlv vat vav).1.xs c = st.xs c ∧
        (add_values st x vlt vlv vat vav).1.ys c = st.ys c) ∨
      (∃ q : ℚ,
        (add_values st x vlt vlv vat vav).1.xs c = st.xs c ++ [x] ∧
        (add_values st x vlt vlv vat vav).1.ys c = st.ys c ++ [q])) := by
  constructor
  · have init : lengthInvariant initState := by
      intro c; cases c <;> rfl
    have main : ∀ (calls : List Ingestion) (st : PlotterState),
        lengthInvariant st → lengthInvariant (ingestMany st calls) := by
      intro calls
      induction calls with
      | nil => intro st h; exact h
      | cons c rest ih =>
          intro st h
          exact ih _ (add_values_lengthInvariant st c.x_index c.loss_train
            c.loss_val c.acc_train c.acc_val h)
    exact fun calls => main calls initState init
  · intro st x vlt vlv vat vav c
    obtain ⟨hx, hy⟩ := add_values_channel st x vlt vlv vat vav c
    rcases h : (ignore_nan_and_inf (chInput vlt vlv vat vav c) (chLabel c) x).1
      with _ | q
    · left
      rw [hx, hy, h]
      exact ⟨rfl, rfl⟩
    · right
      refine ⟨q, ?_, ?_⟩
      · rw [hx, h]
      · rw [hy, h]

/-- C8: for any observation count, percentage and bound pair with
`min_bound ≤ max_bound`, the window size computed by `calcWindow`
(percentage scaling, then `max` with the lower bound, then `min` with the
upper bound) lands in `[min_bound, max_bound]`. -/
theorem c8_window_clamp (count : ℤ) (perc : ℚ) (nMin nMax : ℤ)
    (hc : 0 ≤ count) (h : nMin ≤ nMax) :
    nMin ≤ calcWindow count perc nMin nMax ∧
      calcWindow count perc nMin nMax ≤ nMax :=
  ⟨le_min (le_max_right _ _) h, min_le_right _ _⟩

/-- Witness for C8 at `count = 7`, `percentage = 3/10`, bounds `[1, 4]`. -/
theorem c8_window_clamp_witness :
    (0 : ℤ) ≤ 7 ∧ (1 : ℤ) ≤ 4 ∧
      (1 ≤ calcWindow 7 (3 / 10) 1 4 ∧ calcWindow 7 (3 / 10) 1 4 ≤ 4) :=
  ⟨by decide, by decide, c8_window_clamp 7 (3 / 10) 1 4 (by decide) (by decide)⟩

/-- C9: `query` is a pure function of the stored series — it returns the
state unchanged (the smoother and extrapolator methods never write to the
store), and a second query with no intervening ingestion returns an
identical result. -/
theorem c9_query_pure (fit : ℕ → List ℤ → List ℚ → ℤ → ℚ)
    (cfg : RegressionConfig) (period : ℕ) (st : PlotterState) (c : Channel) :
    (query fit cfg period st c).1 = st ∧
    (query fit cfg period (query fit cfg period st c).1 c).2 =
      (query fit cfg period st c).2 :=
  ⟨rfl, rfl⟩

/-- Helper: the shape of `calc_regression`'s result when the series has at
least 2 points and the clamped forward window is positive. -/
lemma calc_regression_eq (fit : ℕ → List ℤ → List ℚ → ℤ → ℚ)
    (cfg : RegressionConfig) (x_values : List ℤ) (y_values : List ℚ)
    (h2 : 2 ≤ x_values.length)
    (hf : 1 ≤ calcWindow (x_values.length : ℤ) cfg.poly_forward_perc
      cfg.poly_n_forward_min cfg.poly_n_forward_max) :
    calc_regression fit cfg x_values y_values =
      ((List.range (calcWindow (x_values.length : ℤ) cfg.poly_forward_perc
          cfg.poly_n_forward_min cfg.poly_n_forward_max).toNat).map
        (fun i : ℕ => x_values.getLastD 0 + (i : ℤ)),
       ((List.range (calcWindow (x_values.length : ℤ) cfg.poly_forward_perc
          cfg.poly_n_forward_min cfg.poly_n_forward_max).toNat).map
        (fun i : ℕ => x_values.getLastD 0 + (i : ℤ))).map
        (fit cfg.poly_degree
          (pyLastSlice (calcWindow (x_values.length : ℤ) cfg.poly_backward_perc
            cfg.poly_n_backward_min cfg.poly_n_backward_max) x_values)
          (pyLastSlice (calcWindow (x_values.length : ℤ) cfg.poly_backward_perc
            cfg.poly_n_backward_min cfg.poly_n_backward_max) y_values))) := by
  unfold calc_regression
  rw [if_neg (by omega), if_neg (by intro hcon; exact absurd hcon.2 (by omega))]

/-- C2: with at least 2 observations and a positive clamped forward window
`n_forward`, the extrapolated segment has exactly `n_forward` x-values,
they are consecutive integers, the first one is the last observed x of the
raw series (inclusive), and each y-value is the fitted polynomial
evaluated at the corresponding x. -/
theorem c2_projection_segment (fit : ℕ → List ℤ → List ℚ → ℤ → ℚ)
    (cfg : RegressionConfig) (x_values : List ℤ) (y_values : List ℚ)
    (h2 : 2 ≤ x_values.length)
    (hf : 1 ≤ calcWindow (x_values.length : ℤ) cfg.poly_forward_perc
      cfg.poly_n_forward_min cfg.poly_n_forward_max) :
    (calc_regression fit cfg x_values y_values).1.length =
      (calcWindow (x_values.length : ℤ) cfg.poly_forward_perc
        cfg.poly_n_forward_min cfg.poly_n_forward_max).toNat ∧
    (calc_regression fit cfg x_values y_values).1.head? =
      some (x_values.getLastD 0) ∧
    (∀ i : ℕ, i < (calcWindow (x_values.length : ℤ) cfg.poly_forward_perc
        cfg.poly_n_forward_min cfg.poly_n_forward_max).toNat →
      (calc_regression fit cfg x_values y_values).1[i]? =
        some (x_values.getLastD 0 + (i : ℤ))) ∧
    (calc_regression fit cfg x_values y_values).2 =
      (calc_regression fit cfg x_values y_values).1.map
        (fit cfg.poly_degree
          (pyLastSlice (calcWindow (x_values.length : ℤ) cfg.poly_backward_perc
            cfg.poly_n_backward_min cfg.poly_n_backward_max) x_values)
          (pyLastSlice (calcWindow (x_values.length : ℤ) cfg.poly_backward_perc
            cfg.poly_n_backward_min cfg.poly_n_backward_max) y_values)) := by
  rw [calc_regression_eq fit cfg x_values y_values h2 hf]
  refine ⟨by simp, ?_, fun i hi => ?_, rfl⟩
  · rw [List.head?_map, List.head?_eq_getElem?, List.getElem?_range (by omega)]
    simp
  · rw [List.getElem?_map, List.getElem?_range hi]
    rfl

/-- Witness for C2: ten observations `x = 0..9`, default configuration
(forward window clamps to 5). -/
theorem c2_projection_segment_witness :
    2 ≤ ([0, 1, 2, 3, 4, 5, 6, 7, 8, 9] : List ℤ).length ∧
    1 ≤ calcWindow (([0, 1, 2, 3, 4, 5, 6, 7, 8, 9] : List ℤ).length : ℤ)
      defaultRegressionConfig.poly_forward_perc
      defaultRegressionConfig.poly_n_forward_min
      defaultRegressionConfig.poly_n_forward_max ∧
    ((calc_regression constFit defaultRegressionConfig
        [0, 1, 2, 3, 4, 5, 6, 7, 8, 9] [0, 2, 4, 6, 8, 10, 12, 14, 16, 18]).1.length =
      (calcWindow (([0, 1, 2, 3, 4, 5, 6, 7, 8, 9] : List ℤ).length : ℤ)
        defaultRegressionConfig.poly_forward_perc
        defaultRegressionConfig.poly_n_forward_min
        defaultRegressionConfig.poly_n_forward_max).toNat ∧
     (calc_regression constFit defaultRegressionConfig
        [0, 1, 2, 3, 4, 5, 6, 7, 8, 9] [0, 2, 4, 6, 8, 10, 12, 14, 16, 18]).1.head? =
      some (([0, 1, 2, 3, 4, 5, 6, 7, 8, 9] : List ℤ).getLastD 0) ∧
     (∀ i : ℕ, i < (calcWindow (([0, 1, 2, 3, 4, 5, 6, 7, 8, 9] : List ℤ).length : ℤ)
          defaultRegressionConfig.poly_forward_perc
          defaultRegressionConfig.poly_n_forward_min
          defaultRegressionConfig.poly_n_forward_max).toNat →
        (calc_regression constFit defaultRegressionConfig
          [0, 1, 2, 3, 4, 5, 6, 7, 8, 9] [0, 2, 4, 6, 8, 10, 12, 14, 16, 18]).1[i]? =
          some (([0, 1, 2, 3, 4, 5, 6, 7, 8, 9] : List ℤ).getLastD 0 + (i : ℤ))) ∧
     (calc_regression constFit defaultRegressionConfig
        [0, 1, 2, 3, 4, 5, 6, 7, 8, 9] [0, 2, 4, 6, 8, 10, 12, 14, 16, 18]).2 =
      (calc_regression constFit defaultRegressionConfig
        [0, 1, 2, 3, 4, 5, 6, 7, 8, 9] [0, 2, 4, 6, 8, 10, 12, 14, 16, 18]).1.map
        (constFit defaultRegressionConfig.poly_degree
          (pyLastSlice (calcWindow (([0, 1, 2, 3, 4, 5, 6, 7, 8, 9] : List ℤ).length : ℤ)
            defaultRegressionConfig.poly_backward_perc
            defaultRegressionConfig.poly_n_backward_min
            defaultRegressionConfig.poly_n_backward_max)
            [0, 1, 2, 3, 4, 5, 6, 7, 8, 9])
          (pyLastSlice (calcWindow (([0, 1, 2, 3, 4, 5, 6, 7, 8, 9] : List ℤ).length : ℤ)
            defaultRegressionConfig.poly_backward_perc
            defaultRegressionConfig.poly_n_backward_min
            defaultRegressionConfig.poly_n_backward_max)
            [0, 2, 4, 6, 8, 10, 12, 14, 16, 18]))) :=
  ⟨by decide,
   by norm_num [calcWindow, pyInt, defaultRegressionConfig],
   c2_projection_segment constFit defaultRegressionConfig
     [0, 1, 2, 3, 4, 5, 6, 7, 8, 9] [0, 2, 4, 6, 8, 10, 12, 14, 16, 18]
     (by decide)
     (by norm_num [calcWindow, pyInt, defaultRegressionConfig])⟩

/-- C10: when the clamped backward window size is 0 but the forward one is
positive (length ≥ 2), the slice `x_values[-0:]` is the whole list, so the
polynomial is fitted on the entire series and a non-empty projection is
returned (no empty result, no failure). -/
theorem c10_zero_backward_fits_whole_series
    (fit : ℕ → List ℤ → List ℚ → ℤ → ℚ) (cfg : RegressionConfig)
    (x_values : List ℤ) (y_values : List ℚ)
    (h2 : 2 ≤ x_values.length)
    (hb : calcWindow (x_values.length : ℤ) cfg.poly_backward_perc
      cfg.poly_n_backward_min cfg.poly_n_backward_max = 0)
    (hf : 1 ≤ calcWindow (x_values.length : ℤ) cfg.poly_forward_perc
      cfg.poly_n_forward_min cfg.poly_n_forward_max) :
    calc_regression fit cfg x_values y_values =
      ((List.range (calcWindow (x_values.length : ℤ) cfg.poly_forward_perc
          cfg.poly_n_forward_min cfg.poly_n_forward_max).toNat).map
        (fun i : ℕ => x_values.getLastD 0 + (i : ℤ)),
       ((List.range (calcWindow (x_values.length : ℤ) cfg.poly_forward_perc
          cfg.poly_n_forward_min cfg.poly_n_forward_max).toNat).map
        (fun i : ℕ => x_values.getLastD 0 + (i : ℤ))).map
        (fit cfg.poly_degree x_values y_values)) ∧
    (calc_regression fit cfg x_values y_values).1 ≠ [] := by
  have hres := calc_regression_eq fit cfg x_values y_values h2 hf
  rw [hb] at hres
  have hslice : ∀ (α : Type) (l : List α), pyLastSlice (0 : ℤ) l = l := by
    intro α l; simp [pyLastSlice]
  rw [hslice ℤ x_values, hslice ℚ y_values] at hres
  refine ⟨hres, ?_⟩
  rw [hres]
  simp only [ne_eq, List.map_eq_nil_iff, List.range_eq_nil]
  omega

/-- Witness for C10: three observations, `backward_percentage = 1/10` with
`min_backward = 0` (so the backward window clamps to 0),
`forward_percentage = 1/2` with `min_forward = 1`. -/
theorem c10_zero_backward_fits_whole_series_witness :
    2 ≤ ([0, 1, 2] : List ℤ).length ∧
    calcWindow (([0, 1, 2] : List ℤ).length : ℤ) (1 / 10) 0 100 = 0 ∧
    1 ≤ calcWindow (([0, 1, 2] : List ℤ).length : ℤ) (1 / 2) 1 100 ∧
    (calc_regression constFit ⟨1 / 2, 1 / 10, 1, 0, 100, 100, 1⟩ [0, 1, 2] [1, 2, 3] =
      ((List.range (calcWindow (([0, 1, 2] : List ℤ).length : ℤ) (1 / 2) 1 100).toNat).map
        (fun i : ℕ => ([0, 1, 2] : List ℤ).getLastD 0 + (i : ℤ)),
       ((List.range (calcWindow (([0, 1, 2] : List ℤ).length : ℤ) (1 / 2) 1 100).toNat).map
        (fun i : ℕ => ([0, 1, 2] : List ℤ).getLastD 0 + (i : ℤ))).map
        (constFit 1 [0, 1, 2] [1, 2, 3])) ∧
     (calc_regression constFit ⟨1 / 2, 1 / 10, 1, 0, 100, 100, 1⟩ [0, 1, 2] [1, 2, 3]).1 ≠ []) :=
  ⟨by decide,
   by norm_num [calcWindow, pyInt],
   by norm_num [calcWindow, pyInt],
   c10_zero_backward_fits_whole_series constFit ⟨1 / 2, 1 / 10, 1, 0, 100, 100, 1⟩
     [0, 1, 2] [1, 2, 3] (by decide)
     (by norm_num [calcWindow, pyInt])
     (by norm_num [calcWindow, pyInt])⟩

/-- Modelled from the spec's words for C1 (`n = round(count * percentage)`
then clamp): the same window-size computation as `calcWindow`, but with
rounding to the nearest integer in place of the code's `int()` truncation. -/
def calcWindowRound (count : ℤ) (perc : ℚ) (nMin nMax : ℤ) : ℤ :=
  min (max (round ((count : ℚ) * perc)) nMin) nMax

/-- Counterexample to C1 as stated: at `count = 3`, `percentage = 1/5`,
bounds `[0, 100]`, the code's window size (truncation) is 0 while the
claimed `round`-based window size is 1; with such a configuration for the
forward window (`forward_percentage = 1/5`, bounds `[0, 100]`) a 3-point
series yields an empty projection where the claim would require one point. -/
theorem c1_window_round_counterexample :
    calcWindow 3 (1 / 5) 0 100 = 0 ∧
    calcWindowRound 3 (1 / 5) 0 100 = 1 ∧
    calcWindow 3 (1 / 5) 0 100 ≠ calcWindowRound 3 (1 / 5) 0 100 ∧
    calc_regression constFit ⟨1 / 5, 1, 0, 0, 100, 100, 1⟩ [0, 1, 2] [1, 2, 3] =
      ([], []) := by
  refine ⟨?_, ?_, ?_, ?_⟩
  · norm_num [calcWindow, pyInt]
  · norm_num [calcWindowRound, round_eq]
  · norm_num [calcWindow, calcWindowRound, pyInt, round_eq]
  · norm_num [calc_regression, calcWindow, pyInt, pyLastSlice]

/-- The Extrapolator's result as the amended C1 describes it: window sizes
computed by truncation toward zero (`pyInt`, Python's `int()`) of
`count * percentage`, then `max` with the minimum bound, then `min` with
the maximum bound, each direction using its own configured bound pair;
fit on the last `n_backward` pairs; projection on `n_forward` consecutive
integers from the last observed x. -/
def regressionSpecTrunc (fit : ℕ → List ℤ → List ℚ → ℤ → ℚ)
    (cfg : RegressionConfig) (x_values : List ℤ) (y_values : List ℚ) :
    List ℤ × List ℚ :=
  let n_backward := min (max (pyInt (((x_values.length : ℤ) : ℚ) * cfg.poly_backward_perc))
    cfg.poly_n_backward_min) cfg.poly_n_backward_max
  let n_forward := min (max (pyInt (((x_values.length : ℤ) : ℚ) * cfg.poly_forward_perc))
    cfg.poly_n_forward_min) cfg.poly_n_forward_max
  let poly := fit cfg.poly_degree (pyLastSlice n_backward x_values)
    (pyLastSlice n_backward y_values)
  let future_x := (List.range n_forward.toNat).map
    (fun i : ℕ => x_values.getLastD 0 + (i : ℤ))
  (future_x, future_x.map poly)

/-- C1 amended: for every series with at least 2 observations, the window
sizes are computed as `n = int(count * percentage)` — truncation toward
zero, not rounding — and then clamped by first `max(n, min_bound)`, then
`min(n, max_bound)`, with the separate configured bound pairs; the whole
extrapolation result agrees with that policy. -/
theorem c1_window_trunc_clamp (fit : ℕ → List ℤ → List ℚ → ℤ → ℚ)
    (cfg : RegressionConfig) (x_values : List ℤ) (y_values : List ℚ)
    (h2 : 2 ≤ x_values.length) :
    calc_regression fit cfg x_values y_values =
      regressionSpecTrunc fit cfg x_values y_values := by
  simp only [calc_regression, regressionSpecTrunc, calcWindow]
  rw [if_neg (by omega)]
  split_ifs with h
  · obtain ⟨-, hf0⟩ := h
    rw [Int.toNat_of_nonpos hf0]
    simp
  · rfl

/-- Witness for the amended C1 at the two-point series `([0, 1], [1, 2])`
with the default configuration. -/
theorem c1_window_trunc_clamp_witness :
    2 ≤ ([0, 1] : List ℤ).length ∧
    calc_regression constFit defaultRegressionConfig [0, 1] [1, 2] =
      regressionSpecTrunc constFit defaultRegressionConfig [0, 1] [1, 2] :=
  ⟨by decide,
   c1_window_trunc_clamp constFit defaultRegressionConfig [0, 1] [1, 2] (by decide)⟩

/-- Helper spec form of the smoother output: for each incoming value, the
average of the trailing window (`rtake period`) of everything ingested so
far, `pre` being the values already processed. -/
def smaSpecList (period : ℕ) (pre : List ℚ) : List ℚ → List ℚ
  | [] => []
  | y :: rest =>
      ((pre ++ [y]).rtake period).sum / (((pre ++ [y]).rtake period).length : ℚ) ::
        smaSpecList period (pre ++ [y]) rest

/-- Helper: the smoother's output list has the length of its input list. -/
lemma calcSmaAux_length (period : ℕ) (ys : List ℚ) :
    ∀ (last_ys : List ℚ) (s : ℚ),
      (calcSmaAux period last_ys s ys).length = ys.length := by
  induction ys with
  | nil => intro _ _; rfl
  | cons y rest ih =>
      intro last_ys s
      simp only [calcSmaAux]
      split_ifs <;> simp [ih]

/-- Helper: the running-sum sliding-window loop of `_calc_sma` computes,
at every position, the average of the trailing window of the processed
prefix. -/
lemma calcSmaAux_eq_specList (period : ℕ) (hp : 0 < period) (ys : List ℚ) :
    ∀ pre : List ℚ,
      calcSmaAux period (pre.rtake period) (pre.rtake period).sum ys =
        smaSpecList period pre ys := by
  induction ys with
  | nil => intro _; rfl
  | cons y rest ih =>
      intro pre
      have hlenA : (pre.rtake period).length = min period pre.length := by
        simp only [List.rtake, List.length_drop]
        omega
      by_cases hc : period ≤ pre.length
      · -- window already full: the loop pops the oldest element
        have hA : (pre.rtake period).length = period := by omega
        have hAne : pre.rtake period ≠ [] := by
          intro h
          rw [h] at hA
          simp at hA
          omega
        have htail : (pre.rtake period).tail = pre.rtake (period - 1) := by
          simp only [List.rtake, List.tail_drop]
          congr 1
          omega
        have hB : (pre ++ [y]).rtake period = (pre.rtake period).tail ++ [y] := by
          conv_lhs => rw [show period = (period - 1) + 1 by omega]
          rw [List.rtake_concat_succ, htail]
        obtain ⟨a, as, hAeq⟩ := List.exists_cons_of_ne_nil hAne
        have hcond : period < (pre.rtake period ++ [y]).length := by
          simp [hA]
        have e1 : (pre.rtake period ++ [y]).tail = (pre ++ [y]).rtake period := by
          rw [hB, hAeq]
          simp
        have e2 : (pre.rtake period).sum + y - (pre.rtake period ++ [y]).headI =
            ((pre ++ [y]).rtake period).sum := by
          rw [hB, hAeq]
          simp
          ring
        simp only [calcSmaAux, smaSpecList]
        rw [if_pos hcond, e1, e2]
        exact congrArg _ (ih (pre ++ [y]))
      · -- window not yet full: no pop, the whole prefix is the window
        push_neg at hc
        have hpre : pre.rtake period = pre := by
          simp [List.rtake, Nat.sub_eq_zero_of_le (le_of_lt hc)]
        have hcond : ¬ period < (pre.rtake period ++ [y]).length := by
          rw [hpre]
          simp
          omega
        have hB : (pre ++ [y]).rtake period = pre ++ [y] := by
          have hz : (pre ++ [y]).length - period = 0 := by
            simp
            omega
          simp only [List.rtake, hz, List.drop_zero]
        have hsum : (pre ++ [y]).sum = pre.sum + y := by simp
        have ih' := ih (pre ++ [y])
        rw [hB, hsum] at ih'
        simp only [calcSmaAux, smaSpecList]
        rw [if_neg hcond, hpre, hB, hsum]
        exact congrArg _ ih'

/-- Helper: position `i` of the spec form is the trailing-window average of
the input prefix ending at that position. -/
lemma smaSpecList_getElem? (period : ℕ) (ys : List ℚ) :
    ∀ (pre : List ℚ) (i : ℕ), i < ys.length →
      (smaSpecList period pre ys)[i]? =
        some ((((pre ++ ys).take (pre.length + i + 1)).rtake period).sum /
          ((((pre ++ ys).take (pre.length + i + 1)).rtake period).length : ℚ)) := by
  induction ys with
  | nil => intro pre i hi; simp at hi
  | cons y rest ih =>
      intro pre i hi
      cases i with
      | zero =>
          have ht : (pre ++ y :: rest).take (pre.length + 1) = pre ++ [y] := by
            have h1 := @List.take_append ℚ pre (y :: rest) 1
            simpa using h1
          simp only [smaSpecList, List.getElem?_cons_zero, Nat.add_zero]
          rw [ht]
      | succ j =>
          have hj : j < rest.length := by
            simp at hi
            omega
          have h1 := ih (pre ++ [y]) j hj
          rw [List.append_assoc, List.singleton_append] at h1
          have e : (pre ++ [y]).length + j + 1 = pre.length + (j + 1) + 1 := by
            simp
            omega
          rw [e] at h1
          simpa only [smaSpecList, List.getElem?_cons_succ] using h1

/-- C4: `_calc_sma` returns the input index list unchanged and a value list
of the input's length whose entry at position `i` is the arithmetic mean of
the last `min(window, i+1)` input values ending at position `i` (so the
first output equals the first raw value — no warm-up gap); empty input
yields empty output; and with window 3 on values `[1,2,3,4,5]` the output
values are `[1, 3/2, 2, 3, 4]`. -/
theorem c4_sma_trailing_mean (period : ℕ) (x_values : List ℤ)
    (y_values : List ℚ) (hp : 0 < period) :
    (calc_sma period x_values y_values).1 = x_values ∧
    (calc_sma period x_values y_values).2.length = y_values.length ∧
    (∀ i : ℕ, i < y_values.length →
      (calc_sma period x_values y_values).2[i]? =
        some (((y_values.take (i + 1)).rtake (min period (i + 1))).sum /
          ((min period (i + 1) : ℕ) : ℚ))) ∧
    calc_sma period ([] : List ℤ) ([] : List ℚ) = ([], []) ∧
    (calc_sma 3 [0, 1, 2, 3, 4] [1, 2, 3, 4, 5]).2 = [1, 3 / 2, 2, 3, 4] := by
  refine ⟨rfl, calcSmaAux_length period y_values [] 0, fun i hi => ?_, rfl,
    by norm_num [calc_sma, calcSmaAux]⟩
  have h0 : calcSmaAux period [] 0 y_values = smaSpecList period [] y_values := by
    have h := calcSmaAux_eq_specList period hp y_values []
    simpa using h
  have hget := smaSpecList_getElem? period y_values [] i hi
  simp only [List.nil_append, List.length_nil, Nat.zero_add] at hget
  have hlen_take : (y_values.take (i + 1)).length = i + 1 := by
    simp only [List.length_take]
    omega
  have hr : (y_values.take (i + 1)).rtake period =
      (y_values.take (i + 1)).rtake (min period (i + 1)) := by
    simp only [List.rtake, hlen_take]
    congr 1
    omega
  have hrlen : ((y_values.take (i + 1)).rtake period).length = min period (i + 1) := by
    simp only [List.rtake, List.length_drop, hlen_take]
    omega
  show (calcSmaAux period [] 0 y_values)[i]? = _
  rw [h0, hget, hrlen, hr]

/-- Witness for C4 with window 3 on the series
`([0,1,2,3,4], [1,2,3,4,5])`. -/
theorem c4_sma_trailing_mean_witness :
    0 < 3 ∧
    ((calc_sma 3 [0, 1, 2, 3, 4] [1, 2, 3, 4, 5]).1 = [0, 1, 2, 3, 4] ∧
     (calc_sma 3 [0, 1, 2, 3, 4] [1, 2, 3, 4, 5]).2.length =
       ([1, 2, 3, 4, 5] : List ℚ).length ∧
     (∀ i : ℕ, i < ([1, 2, 3, 4, 5] : List ℚ).length →
       (calc_sma 3 [0, 1, 2, 3, 4] [1, 2, 3, 4, 5]).2[i]? =
         some (((([1, 2, 3, 4, 5] : List ℚ).take (i + 1)).rtake (min 3 (i + 1))).sum /
           ((min 3 (i + 1) : ℕ) : ℚ))) ∧
     calc_sma 3 ([] : List ℤ) ([] : List ℚ) = ([], []) ∧
     (calc_sma 3 [0, 1, 2, 3, 4] [1, 2, 3, 4, 5]).2 = [1, 3 / 2, 2, 3, 4]) :=
  ⟨by decide, c4_sma_trailing_mean 3 [0, 1, 2, 3, 4] [1, 2, 3, 4, 5] (by decide)⟩

end LAPlotter
